import Mathlib

/-
Shallow embedding of the knowledge-base matching engine of the
solana-rfp-tool repository: the class `KnowledgeBaseService` in
`app/services/knowledge_service.py` (reproduced in the repository's
architecture document), together with the text-processing behaviour of the
sklearn components it calls, `TfidfVectorizer(ngram_range=(1,2), min_df=1)`
and `cosine_similarity`.

Modelling conventions:
* Python floats are modelled as real numbers; caller-supplied thresholds
  (`min_confidence`) are modelled as rationals (every float literal is a
  rational) cast into the reals at each comparison.
* Character classes of the Python regexes are modelled at ASCII scope.
* Entity ids (uuids in the database schema) are modelled by a counter.
-/

namespace SolanaRfp

/-- Word character of the Python regex class `\w`, ASCII scope: a letter, a
digit, or an underscore. -/
def isWordChar (c : Char) : Bool := c.isAlphanum || c = '_'

/-- Whitespace of the Python regex class `\s`, ASCII scope. -/
def isPySpace (c : Char) : Bool :=
  c = ' ' || c = '\t' || c = '\n' || c = '\r' || c = '\x0b' || c = '\x0c'

/-- Single-character action of `re.sub(r"[^\w\s\-\.]", " ", text)` in
`_normalize_text`: any character outside word, whitespace, hyphen, period
becomes a space. -/
def keepChar (c : Char) : Char :=
  if isWordChar c || isPySpace c || c = '-' || c = '.' then c else ' '

/-- Action of `re.sub(r"\s+", " ", text)` in `_normalize_text`: each maximal
run of whitespace becomes one space. -/
def collapseWs : List Char → List Char
  | [] => []
  | [c] => if isPySpace c then [' '] else [c]
  | c1 :: c2 :: cs =>
    if isPySpace c1 then
      if isPySpace c2 then collapseWs (c2 :: cs)
      else ' ' :: collapseWs (c2 :: cs)
    else c1 :: collapseWs (c2 :: cs)

/-- Action of Python's `str.strip()`: drop whitespace from both ends. -/
def stripWs (l : List Char) : List Char :=
  ((l.dropWhile isPySpace).reverse.dropWhile isPySpace).reverse

/-- Method `_normalize_text` of `KnowledgeBaseService`: lower-case, replace
every character outside word, whitespace, hyphen, period with a space,
collapse whitespace runs to single spaces, strip the ends. -/
def normalizeText (s : String) : String :=
  String.mk (stripWs (collapseWs ((s.data.map Char.toLower).map keepChar)))

/-- Token extraction of `TfidfVectorizer` with its default
`token_pattern=r"(?u)\b\w\w+\b"`: the maximal runs of word characters having
length at least two.  The accumulator holds the current run, reversed. -/
def tokenizeAux (acc : List Char) : List Char → List String
  | [] => if acc.length ≥ 2 then [String.mk acc.reverse] else []
  | c :: cs =>
    if isWordChar c then tokenizeAux (c :: acc) cs
    else (if acc.length ≥ 2 then [String.mk acc.reverse] else []) ++ tokenizeAux [] cs

/-- Tokens of a string, as extracted by the fitted vectorizer. -/
def tokenize (s : String) : List String := tokenizeAux [] s.data

/-- Feature extraction for `ngram_range=(1,2)`: all unigrams and all bigrams
of the token sequence, bigrams joined by a single space as sklearn joins
them.  Only the multiset of n-grams matters for the TF-IDF scores. -/
def ngrams (toks : List String) : List String :=
  toks ++ (toks.zip toks.tail).map (fun p => p.1 ++ " " ++ p.2)

/-- N-grams of one corpus string. -/
def gramsOf (doc : String) : List String := ngrams (tokenize doc)

/-- Row of the `knowledge_base` table, as constructed by `add_entry`
(`KnowledgeBase(question=..., answer=..., tags=..., category=...)`, with
`is_active` defaulting to true). -/
structure KnowledgeBase where
  id : ℕ
  question : String
  answer : String
  tags : List String
  category : Option String
  is_active : Bool
deriving DecidableEq

/-- Corpus string built for one entry in `_rebuild_index`:
`_normalize_text(item.question + " " + item.answer + " " + " ".join(item.tags))`. -/
def docString (e : KnowledgeBase) : String :=
  normalizeText (e.question ++ " " ++ e.answer ++ " " ++ String.intercalate " " e.tags)

/-- State of one `KnowledgeBaseService` object: the backing store `db` read by
`get_all_active_entries` (with `nextId` modelling id assignment on insert),
the cached active entries `kb_items`, and `corpus`, which is `some` exactly
when `self.vectorizer`, `self.X` and `self.corpus` hold a fitted model.  The
fitted vocabulary, idf weights and TF-IDF matrix are functions of the stored
corpus strings, so the corpus list represents all three fields. -/
structure Service where
  db : List KnowledgeBase
  nextId : ℕ
  kb_items : List KnowledgeBase
  corpus : Option (List String)

/-- Method `get_all_active_entries`: the active rows of the store. -/
def activeEntries (db : List KnowledgeBase) : List KnowledgeBase :=
  db.filter (fun e => e.is_active)

/-- Method `_rebuild_index`: reload `kb_items`; if no active entry exists,
return at once (`if not self.kb_items: return`), leaving any previously
fitted model in place; otherwise rebuild the corpus strings and refit the
vectorizer on them. -/
def rebuildIndex (s : Service) : Service :=
  let items := activeEntries s.db
  if items.isEmpty then { s with kb_items := [] }
  else { s with kb_items := items, corpus := some (items.map docString) }

/-- Constructor `KnowledgeBaseService.__init__`: empty index fields, then an
immediate `_rebuild_index`. -/
def initService (db : List KnowledgeBase) (nextId : ℕ) : Service :=
  rebuildIndex { db := db, nextId := nextId, kb_items := [], corpus := none }

/-- Document frequency: number of corpus documents containing the term. -/
def dfCount (docsG : List (List String)) (t : String) : ℕ :=
  (docsG.filter (fun d => d.contains t)).length

/-- Smoothed inverse document frequency of `TfidfVectorizer` with its default
`smooth_idf=True`: `ln((1 + n) / (1 + df)) + 1`. -/
noncomputable def idf (docsG : List (List String)) (t : String) : ℝ :=
  Real.log ((1 + docsG.length : ℝ) / (1 + dfCount docsG t : ℝ)) + 1

/-- TF-IDF weight of term `t` for a bag of n-grams: raw count times idf. -/
noncomputable def tfidf (docsG : List (List String)) (gs : List String) (t : String) : ℝ :=
  (gs.count t : ℝ) * idf docsG t

/-- Vocabulary learned by `fit_transform`: every n-gram of every document,
listed once (`min_df=1` keeps them all). -/
def vocabOf (docsG : List (List String)) : List String := docsG.flatten.dedup

/-- Inner product of the TF-IDF vectors of two bags of n-grams over the
fitted vocabulary.  A query n-gram outside the vocabulary is dropped by
`transform`, which the restriction of the sum to the vocabulary models. -/
noncomputable def dotW (docsG : List (List String)) (g1 g2 : List String) : ℝ :=
  ((vocabOf docsG).map (fun t => tfidf docsG g1 t * tfidf docsG g2 t)).sum

/-- Score of `cosine_similarity(qv, X)` for one document row.
`TfidfVectorizer` l2-normalizes its rows and `cosine_similarity`
renormalizes, so the score is the cosine of the raw TF-IDF vectors; sklearn
keeps an all-zero row at zero, which the division-by-zero convention of the
reals reproduces. -/
noncomputable def cosineSim (docsG : List (List String)) (g1 g2 : List String) : ℝ :=
  dotW docsG g1 g2 / (Real.sqrt (dotW docsG g1 g1) * Real.sqrt (dotW docsG g2 g2))

/-- Dict appended to `matches` in `search_answers`. -/
structure MatchCandidate where
  id : ℕ
  question : String
  answer : String
  confidence : ℝ
  tags : List String
  category : Option String

/-- Candidate built from one `kb_item` and its similarity score. -/
def mkCandidate (e : KnowledgeBase) (score : ℝ) : MatchCandidate :=
  { id := e.id, question := e.question, answer := e.answer, confidence := score,
    tags := e.tags, category := e.category }

/-- Stable insertion into a descending-sorted candidate list: the new
candidate goes after every earlier candidate of greater or equal confidence. -/
noncomputable def insertDesc (m : MatchCandidate) : List MatchCandidate → List MatchCandidate
  | [] => [m]
  | b :: bs =>
    if b.confidence ≤ m.confidence then m :: b :: bs else b :: insertDesc m bs

/-- Python's stable `matches.sort(key=lambda x: x["confidence"], reverse=True)`:
descending by confidence, ties kept in original order. -/
noncomputable def sortDesc : List MatchCandidate → List MatchCandidate
  | [] => []
  | m :: ms => insertDesc m (sortDesc ms)

/-- Filtered, unsorted `matches` list built by `search_answers` before the
final sort: one candidate per active entry whose cosine score reaches
`min_confidence`.  The guard mirrors
`if not self.kb_items or not self.vectorizer: return []`; the zip models the
`kb_items[i]` lookup under `enumerate(similarities)`, the two lists having
equal length in every state `_rebuild_index` produces. -/
noncomputable def matchesFor (s : Service) (question : String) (min_confidence : ℚ) :
    List MatchCandidate :=
  match s.corpus with
  | none => []
  | some corpus =>
    if s.kb_items.isEmpty then [] else
    let docsG := corpus.map gramsOf
    let qGrams := gramsOf (normalizeText question)
    let sims := docsG.map (fun d => cosineSim docsG qGrams d)
    ((s.kb_items.zip sims).filter
      (fun p => decide ((min_confidence : ℝ) ≤ p.2))).map (fun p => mkCandidate p.1 p.2)

/-- Method `search_answers`: the filtered matches, sorted descending by
confidence. -/
noncomputable def searchAnswers (s : Service) (question : String) (min_confidence : ℚ) :
    List MatchCandidate :=
  sortDesc (matchesFor s question min_confidence)

/-- Method `get_best_answer`: `matches[0] if matches else None`. -/
noncomputable def getBestAnswer (s : Service) (question : String) (min_confidence : ℚ) :
    Option MatchCandidate :=
  (searchAnswers s question min_confidence).head?

/-- Python exception value raised by `add_entry` on a duplicate. -/
inductive PyErr where
  | valueError (msg : String)
deriving DecidableEq

/-- Message of the `ValueError` raised by `add_entry`; it is a fixed string
and carries no entry id. -/
def dupMsg : String := "Similar question already exists in knowledge base"

/-- Method `add_entry`: first the duplicate check
`search_answers(question, min_confidence=0.8)`; on a hit, raise `ValueError`
before any write; otherwise insert the row, commit, rebuild the index and
return the entry dict.  The result pairs the state of the service object
after the call with the raised error or returned value. -/
noncomputable def addEntry (s : Service) (question answer : String) (tags : List String)
    (category : Option String) : Service × Except PyErr KnowledgeBase :=
  if (searchAnswers s question (8/10)).isEmpty = false then
    (s, Except.error (PyErr.valueError dupMsg))
  else
    let e : KnowledgeBase :=
      { id := s.nextId, question := question, answer := answer, tags := tags,
        category := category, is_active := true }
    (rebuildIndex { s with db := s.db ++ [e], nextId := s.nextId + 1 }, Except.ok e)

/-- Descending-confidence relation; `sortDesc` output is pairwise in it. -/
def ConfGE (a b : MatchCandidate) : Prop := b.confidence ≤ a.confidence

theorem insertDesc_perm (m : MatchCandidate) (l : List MatchCandidate) :
    (insertDesc m l).Perm (m :: l) := by
  induction l with
  | nil => simp [insertDesc]
  | cons b bs ih =>
    by_cases h : b.confidence ≤ m.confidence
    · simp [insertDesc, if_pos h]
    · simp only [insertDesc, if_neg h]
      exact (ih.cons b).trans (List.Perm.swap m b bs)

theorem sortDesc_perm (l : List MatchCandidate) : (sortDesc l).Perm l := by
  induction l with
  | nil => simp [sortDesc]
  | cons m ms ih =>
    simpa [sortDesc] using (insertDesc_perm m (sortDesc ms)).trans (ih.cons m)

theorem insertDesc_pairwise {m : MatchCandidate} {l : List MatchCandidate}
    (h : l.Pairwise ConfGE) : (insertDesc m l).Pairwise ConfGE := by
  induction l with
  | nil => simp [insertDesc, ConfGE]
  | cons b bs ih =>
    rcases List.pairwise_cons.mp h with ⟨hb, hbs⟩
    by_cases hc : b.confidence ≤ m.confidence
    · simp only [insertDesc, if_pos hc]
      refine List.pairwise_cons.mpr ⟨?_, h⟩
      intro x hx
      rcases List.mem_cons.mp hx with rfl | hx2
      · exact hc
      · exact le_trans (hb x hx2) hc
    · simp only [insertDesc, if_neg hc]
      refine List.pairwise_cons.mpr ⟨?_, ih hbs⟩
      intro x hx
      have hx2 := (insertDesc_perm m bs).mem_iff.mp hx
      rcases List.mem_cons.mp hx2 with rfl | hx3
      · exact le_of_not_le hc
      · exact hb x hx3

theorem sortDesc_pairwise (l : List MatchCandidate) : (sortDesc l).Pairwise ConfGE := by
  induction l with
  | nil => simp [sortDesc]
  | cons m ms ih =>
    simpa [sortDesc] using insertDesc_pairwise (m := m) ih

theorem matchesFor_subset {s : Service} {q : String} {t1 t2 : ℚ} (h : t1 ≤ t2) :
    matchesFor s q t2 ⊆ matchesFor s q t1 := by
  intro m hm
  rcases hcor : s.corpus with _ | corpus
  · simp only [matchesFor, hcor] at hm
    cases hm
  · simp only [matchesFor, hcor] at hm ⊢
    by_cases hk : s.kb_items.isEmpty = true
    · rw [if_pos hk] at hm
      cases hm
    · rw [if_neg hk] at hm ⊢
      rcases List.mem_map.mp hm with ⟨p, hp, rfl⟩
      rcases List.mem_filter.mp hp with ⟨hpz, hpc⟩
      refine List.mem_map.mpr ⟨p, List.mem_filter.mpr ⟨hpz, ?_⟩, rfl⟩
      rw [decide_eq_true_eq] at hpc ⊢
      calc ((t1 : ℝ)) ≤ (t2 : ℝ) := by exact_mod_cast h
        _ ≤ p.2 := hpc

theorem searchAnswers_subset {s : Service} {q : String} {t1 t2 : ℚ} (h : t1 ≤ t2) :
    searchAnswers s q t2 ⊆ searchAnswers s q t1 := by
  intro m hm
  unfold searchAnswers at hm ⊢
  have h2 := (sortDesc_perm (matchesFor s q t2)).mem_iff.mp hm
  exact (sortDesc_perm (matchesFor s q t1)).mem_iff.mpr (matchesFor_subset h h2)

/-- C3: for every service state, question and thresholds t1 < t2, every
candidate returned by `search_answers` at `min_confidence = t2` is also
returned at `min_confidence = t1`, so the lower-threshold result set is a
superset of the higher-threshold one. -/
theorem C3_threshold_monotonic (s : Service) (question : String) (t1 t2 : ℚ)
    (h : t1 < t2) : searchAnswers s question t2 ⊆ searchAnswers s question t1 :=
  searchAnswers_subset (le_of_lt h)

theorem C3_threshold_monotonic_witness :
    (1 : ℚ)/10 < 8/10 ∧
      searchAnswers (initService [] 0) "anything" (8/10) ⊆
        searchAnswers (initService [] 0) "anything" ((1 : ℚ)/10) :=
  ⟨by norm_num, C3_threshold_monotonic (initService [] 0) "anything" ((1 : ℚ)/10) (8/10)
    (by norm_num)⟩

/-- C5: `get_best_answer` is `none` exactly when no candidate passes the
`min_confidence` filter, and otherwise returns a candidate of the filtered
list whose confidence is maximal among all filtered candidates (the head of
the descending-sorted filtered list). -/
theorem C5_best_answer (s : Service) (question : String) (c : ℚ) :
    (getBestAnswer s question c = none ↔ matchesFor s question c = []) ∧
    (getBestAnswer s question c).elim True (fun m =>
      m ∈ matchesFor s question c ∧
      (matchesFor s question c).Forall (fun m2 => m2.confidence ≤ m.confidence)) := by
  have hperm := sortDesc_perm (matchesFor s question c)
  constructor
  · unfold getBestAnswer searchAnswers
    rw [List.head?_eq_none_iff]
    constructor
    · intro hnil
      rw [hnil] at hperm
      exact hperm.symm.eq_nil
    · intro hM
      rw [hM]
      simp [sortDesc]
  · cases hb : getBestAnswer s question c with
    | none => exact trivial
    | some m =>
      unfold getBestAnswer searchAnswers at hb
      have hmem : m ∈ sortDesc (matchesFor s question c) :=
        List.mem_of_mem_head? (by rw [hb]; rfl)
      refine ⟨hperm.mem_iff.mp hmem, ?_⟩
      rw [List.forall_iff_forall_mem]
      intro m2 hm2
      have hs := sortDesc_pairwise (matchesFor s question c)
      have hm2s : m2 ∈ sortDesc (matchesFor s question c) := hperm.mem_iff.mpr hm2
      cases hsort : sortDesc (matchesFor s question c) with
      | nil => rw [hsort] at hm2s; cases hm2s
      | cons a rest =>
        rw [hsort] at hb hm2s hs
        have ham : a = m := by
          simpa using hb
        subst ham
        rcases List.mem_cons.mp hm2s with rfl | hrest
        · exact le_refl _
        · exact (List.pairwise_cons.mp hs).1 m2 hrest

theorem rebuildIndex_idem (s : Service) : rebuildIndex (rebuildIndex s) = rebuildIndex s := by
  unfold rebuildIndex activeEntries
  by_cases h : (List.filter (fun e => e.is_active) s.db).isEmpty = true
  · simp [h]
  · simp [h]

/-- C6: rebuilding the index twice from an unchanged entry store yields the
same `search_answers` results as building it once, for every query and
threshold (the rebuild is idempotent on the observable search output). -/
theorem C6_rebuild_idempotent (s : Service) (question : String) (c : ℚ) :
    searchAnswers (rebuildIndex (rebuildIndex s)) question c =
      searchAnswers (rebuildIndex s) question c := by
  rw [rebuildIndex_idem]

theorem searchAnswers_no_active (db : List KnowledgeBase) (n : ℕ) (question : String)
    (c : ℚ) (h : activeEntries db = []) :
    searchAnswers (initService db n) question c = [] := by
  unfold initService rebuildIndex
  rw [h]
  simp only [List.isEmpty_nil, if_pos]
  unfold searchAnswers matchesFor
  simp [sortDesc]

/-- C7: when the entry store holds no active entry, `search_answers` on the
freshly constructed service returns the empty list for every query string
and every threshold; being a total function, it raises nothing. -/
theorem C7_empty_store (db : List KnowledgeBase) (n : ℕ) (question : String) (c : ℚ)
    (h : activeEntries db = []) :
    searchAnswers (initService db n) question c = [] :=
  searchAnswers_no_active db n question c h

theorem C7_empty_store_witness :
    activeEntries [] = [] ∧ searchAnswers (initService [] 0) "anything" ((1 : ℚ)/10) = [] :=
  ⟨rfl, C7_empty_store [] 0 "anything" ((1 : ℚ)/10) rfl⟩

theorem dfCount_le_length (docsG : List (List String)) (t : String) :
    dfCount docsG t ≤ docsG.length := List.length_filter_le _ _

theorem one_le_idf (docsG : List (List String)) (t : String) : 1 ≤ idf docsG t := by
  unfold idf
  have hpos : (0 : ℝ) < 1 + (dfCount docsG t : ℝ) := by positivity
  have h1 : (1 : ℝ) ≤ (1 + (docsG.length : ℝ)) / (1 + (dfCount docsG t : ℝ)) := by
    rw [le_div_iff₀ hpos]
    have h2 : (dfCount docsG t : ℝ) ≤ (docsG.length : ℝ) := by
      exact_mod_cast dfCount_le_length docsG t
    linarith
  have h3 := Real.log_nonneg h1
  linarith

theorem idf_nonneg (docsG : List (List String)) (t : String) : 0 ≤ idf docsG t :=
  le_trans zero_le_one (one_le_idf docsG t)

theorem tfidf_nonneg (docsG : List (List String)) (gs : List String) (t : String) :
    0 ≤ tfidf docsG gs t :=
  mul_nonneg (Nat.cast_nonneg _) (idf_nonneg docsG t)

theorem dotW_nonneg (docsG : List (List String)) (g1 g2 : List String) :
    0 ≤ dotW docsG g1 g2 := by
  apply List.sum_nonneg
  intro x hx
  rcases List.mem_map.mp hx with ⟨t, _, rfl⟩
  exact mul_nonneg (tfidf_nonneg _ _ _) (tfidf_nonneg _ _ _)

theorem list_inner_le_sqrt (l : List String) (f g : String → ℝ)
    (hf : ∀ t, 0 ≤ f t) (hg : ∀ t, 0 ≤ g t) :
    (l.map (fun t => f t * g t)).sum ≤
      Real.sqrt ((l.map (fun t => f t * f t)).sum) *
        Real.sqrt ((l.map (fun t => g t * g t)).sum) := by
  induction l with
  | nil => simp
  | cons a l ih =>
    simp only [List.map_cons, List.sum_cons]
    set x := f a with hx
    set y := g a with hy
    set S := (l.map (fun t => f t * g t)).sum with hS
    set A := (l.map (fun t => f t * f t)).sum with hA
    set B := (l.map (fun t => g t * g t)).sum with hB
    have hxnn : 0 ≤ x := hf a
    have hynn : 0 ≤ y := hg a
    have hAnn : 0 ≤ A := by
      apply List.sum_nonneg
      intro z hz
      rcases List.mem_map.mp hz with ⟨t, _, rfl⟩
      exact mul_nonneg (hf t) (hf t)
    have hBnn : 0 ≤ B := by
      apply List.sum_nonneg
      intro z hz
      rcases List.mem_map.mp hz with ⟨t, _, rfl⟩
      exact mul_nonneg (hg t) (hg t)
    have hSnn : 0 ≤ S := by
      apply List.sum_nonneg
      intro z hz
      rcases List.mem_map.mp hz with ⟨t, _, rfl⟩
      exact mul_nonneg (hf t) (hg t)
    have hsqA : Real.sqrt A * Real.sqrt A = A := Real.mul_self_sqrt hAnn
    have hsqB : Real.sqrt B * Real.sqrt B = B := Real.mul_self_sqrt hBnn
    have hS2 : S * S ≤ A * B := by
      nlinarith [ih, Real.sqrt_nonneg A, Real.sqrt_nonneg B]
    have t1 : 2 * (x * Real.sqrt B) * (y * Real.sqrt A) ≤
        (x * Real.sqrt B) ^ 2 + (y * Real.sqrt A) ^ 2 := two_mul_le_add_sq _ _
    have t2 : (x * Real.sqrt B) ^ 2 = x * x * B := by
      rw [mul_pow, Real.sq_sqrt hBnn]
      ring
    have t3 : (y * Real.sqrt A) ^ 2 = y * y * A := by
      rw [mul_pow, Real.sq_sqrt hAnn]
      ring
    have t4 : 2 * (x * y) * S ≤ 2 * (x * y) * (Real.sqrt A * Real.sqrt B) :=
      mul_le_mul_of_nonneg_left ih (by positivity)
    have h2 : 2 * (x * y) * S ≤ x * x * B + y * y * A := by
      nlinarith [t1, t2, t3, t4]
    have key : (x * y + S) ^ 2 ≤ (x * x + A) * (y * y + B) := by
      nlinarith [hS2, h2]
    have h0 : 0 ≤ x * y + S := add_nonneg (mul_nonneg hxnn hynn) hSnn
    have hgoal : x * y + S ≤ Real.sqrt ((x * x + A) * (y * y + B)) :=
      (Real.le_sqrt h0 (by nlinarith [key])).mpr key
    calc x * y + S ≤ Real.sqrt ((x * x + A) * (y * y + B)) := hgoal
      _ = Real.sqrt (x * x + A) * Real.sqrt (y * y + B) :=
          Real.sqrt_mul (by positivity) _

theorem cosineSim_nonneg (docsG : List (List String)) (g1 g2 : List String) :
    0 ≤ cosineSim docsG g1 g2 :=
  div_nonneg (dotW_nonneg _ _ _) (mul_nonneg (Real.sqrt_nonneg _) (Real.sqrt_nonneg _))

theorem cosineSim_le_one (docsG : List (List String)) (g1 g2 : List String) :
    cosineSim docsG g1 g2 ≤ 1 := by
  unfold cosineSim
  rcases eq_or_lt_of_le (mul_nonneg (Real.sqrt_nonneg (dotW docsG g1 g1))
      (Real.sqrt_nonneg (dotW docsG g2 g2))) with h | h
  · rw [← h, div_zero]
    exact zero_le_one
  · rw [div_le_one h]
    unfold dotW
    exact list_inner_le_sqrt _ _ _ (fun t => tfidf_nonneg _ _ _) (fun t => tfidf_nonneg _ _ _)

/-- C9: every confidence attached to a candidate returned by
`search_answers` lies in the closed interval from 0 to 1: TF-IDF weights are
non-negative, so the cosine similarity is non-negative, and by the
Cauchy-Schwarz inequality it never exceeds 1. -/
theorem C9_confidence_unit_interval (s : Service) (question : String) (c : ℚ) :
    (searchAnswers s question c).Forall (fun m => 0 ≤ m.confidence ∧ m.confidence ≤ 1) := by
  rw [List.forall_iff_forall_mem]
  intro m hm
  have hm2 : m ∈ matchesFor s question c := (sortDesc_perm _).mem_iff.mp hm
  rcases hcor : s.corpus with _ | corpus
  · simp only [matchesFor, hcor] at hm2
    cases hm2
  · simp only [matchesFor, hcor] at hm2
    by_cases hk : s.kb_items.isEmpty = true
    · rw [if_pos hk] at hm2
      cases hm2
    · rw [if_neg hk] at hm2
      rcases List.mem_map.mp hm2 with ⟨p, hp, rfl⟩
      obtain ⟨e, sim⟩ := p
      rcases List.mem_filter.mp hp with ⟨hpz, _⟩
      have hsim := (List.of_mem_zip hpz).2
      rcases List.mem_map.mp hsim with ⟨d, _, rfl⟩
      exact ⟨cosineSim_nonneg _ _ _, cosineSim_le_one _ _ _⟩

theorem toNat_ofNat_valid {n : ℕ} (h : n < 55296) : (Char.ofNat n).toNat = n := by
  have hv : n.isValidChar := Or.inl h
  simp only [Char.ofNat, dif_pos hv]
  rfl

theorem toLower_not_upper (c : Char) :
    ¬('A' ≤ Char.toLower c ∧ Char.toLower c ≤ 'Z') := by
  simp only [Char.toLower]
  split
  · rename_i h
    intro hc
    have hval : (Char.ofNat (c.toNat + 32)).toNat = c.toNat + 32 :=
      toNat_ofNat_valid (by omega)
    have h2 := hc.2
    simp only [Char.le_def] at h2
    have h3 : (Char.ofNat (c.toNat + 32)).toNat ≤ 90 := by
      simpa [Char.toNat] using h2
    omega
  · rename_i h
    intro hc
    rcases hc with ⟨h1, h2⟩
    simp only [Char.le_def] at h1 h2
    have hn : 65 ≤ c.toNat ∧ c.toNat ≤ 90 := by
      constructor
      · exact_mod_cast h1
      · exact_mod_cast h2
    exact h ⟨hn.1, hn.2⟩

theorem ne_space_of_not_pyspace {c : Char} (h : isPySpace c = false) : c ≠ ' ' := by
  intro hc
  subst hc
  exact absurd h (by decide)

theorem mem_collapseWs : ∀ (l : List Char), ∀ c ∈ collapseWs l,
    c = ' ' ∨ (c ∈ l ∧ isPySpace c = false)
  | [] => by
    intro c hc
    simp [collapseWs] at hc
  | [a] => by
    intro c hc
    by_cases ha : isPySpace a = true
    · simp only [collapseWs, if_pos ha, List.mem_singleton] at hc
      exact Or.inl hc
    · simp only [collapseWs, if_neg ha, List.mem_singleton] at hc
      subst hc
      exact Or.inr ⟨List.mem_singleton_self c, Bool.eq_false_iff.mpr ha⟩
  | a :: b :: l => by
    intro c hc
    by_cases ha : isPySpace a = true
    · by_cases hb : isPySpace b = true
      · simp only [collapseWs, if_pos ha, if_pos hb] at hc
        rcases mem_collapseWs (b :: l) c hc with h | ⟨h1, h2⟩
        · exact Or.inl h
        · exact Or.inr ⟨List.mem_cons_of_mem a h1, h2⟩
      · simp only [collapseWs, if_pos ha, if_neg hb, List.mem_cons] at hc
        rcases hc with rfl | hc2
        · exact Or.inl rfl
        · rcases mem_collapseWs (b :: l) c hc2 with h | ⟨h1, h2⟩
          · exact Or.inl h
          · exact Or.inr ⟨List.mem_cons_of_mem a h1, h2⟩
    · simp only [collapseWs, if_neg ha, List.mem_cons] at hc
      rcases hc with rfl | hc2
      · exact Or.inr ⟨List.mem_cons_self c _, Bool.eq_false_iff.mpr ha⟩
      · rcases mem_collapseWs (b :: l) c hc2 with h | ⟨h1, h2⟩
        · exact Or.inl h
        · exact Or.inr ⟨List.mem_cons_of_mem a h1, h2⟩

theorem collapseWs_cons_ne_space (a : Char) (l : List Char) (ha : isPySpace a = false) :
    ∃ t, collapseWs (a :: l) = a :: t := by
  cases l with
  | nil =>
    refine ⟨[], ?_⟩
    simp [collapseWs, ha]
  | cons b l2 =>
    refine ⟨collapseWs (b :: l2), ?_⟩
    simp [collapseWs, ha]

/-- Relation stating that two adjacent characters are not both spaces; the
whitespace-collapse step establishes it along the whole output. -/
def noDoubleSpace (a b : Char) : Prop := ¬(a = ' ' ∧ b = ' ')

theorem chain'_collapseWs : ∀ (l : List Char), List.Chain' noDoubleSpace (collapseWs l)
  | [] => by simp [collapseWs]
  | [a] => by
    by_cases ha : isPySpace a = true
    · simp [collapseWs, ha]
    · simp [collapseWs, ha]
  | a :: b :: l => by
    by_cases ha : isPySpace a = true
    · by_cases hb : isPySpace b = true
      · simpa [collapseWs, ha, hb] using chain'_collapseWs (b :: l)
      · have hbf : isPySpace b = false := Bool.eq_false_iff.mpr hb
        obtain ⟨t, ht⟩ := collapseWs_cons_ne_space b l hbf
        rw [show collapseWs (a :: b :: l) = ' ' :: collapseWs (b :: l) by
          simp [collapseWs, ha, hb], ht]
        refine List.chain'_cons'.mpr ⟨?_, ?_⟩
        · intro y hy
          rw [List.head?_cons] at hy
          rcases Option.mem_some_iff.mp hy with rfl
          intro hcon
          exact ne_space_of_not_pyspace hbf hcon.2
        · rw [← ht]
          exact chain'_collapseWs (b :: l)
    · have haf : isPySpace a = false := Bool.eq_false_iff.mpr ha
      rw [show collapseWs (a :: b :: l) = a :: collapseWs (b :: l) by
        simp [collapseWs, ha]]
      refine List.chain'_cons'.mpr ⟨?_, chain'_collapseWs (b :: l)⟩
      intro y hy
      intro hcon
      exact ne_space_of_not_pyspace haf hcon.1

theorem head?_dropWhile_not {p : Char → Bool} : ∀ (l : List Char) (c : Char),
    (l.dropWhile p).head? = some c → p c = false
  | [], c => by
    intro h
    simp [List.dropWhile] at h
  | a :: l, c => by
    intro h
    by_cases ha : p a = true
    · rw [List.dropWhile_cons, if_pos ha] at h
      exact head?_dropWhile_not l c h
    · rw [List.dropWhile_cons, if_neg ha] at h
      rw [List.head?_cons] at h
      cases h
      exact Bool.eq_false_iff.mpr ha

theorem stripWs_subset (l : List Char) : ∀ c ∈ stripWs l, c ∈ l := by
  intro c hc
  unfold stripWs at hc
  rw [List.mem_reverse] at hc
  have h2 : c ∈ (l.dropWhile isPySpace).reverse :=
    (List.dropWhile_suffix isPySpace).subset hc
  rw [List.mem_reverse] at h2
  exact (List.dropWhile_suffix isPySpace).subset h2

theorem noDoubleSpace_symm {x y : Char} (h : noDoubleSpace x y) : noDoubleSpace y x := by
  intro hcon
  exact h ⟨hcon.2, hcon.1⟩

theorem chain'_reverse_of_chain' {l : List Char} (h : List.Chain' noDoubleSpace l) :
    List.Chain' noDoubleSpace l.reverse := by
  rw [List.chain'_reverse]
  exact h.imp (fun a b hab => noDoubleSpace_symm hab)

theorem chain'_stripWs {l : List Char} (h : List.Chain' noDoubleSpace l) :
    List.Chain' noDoubleSpace (stripWs l) := by
  unfold stripWs
  apply chain'_reverse_of_chain'
  apply List.Chain'.suffix _ (List.dropWhile_suffix isPySpace)
  apply chain'_reverse_of_chain'
  exact h.suffix (List.dropWhile_suffix isPySpace)

theorem getLast?_stripWs (l : List Char) (c : Char)
    (h : (stripWs l).getLast? = some c) : isPySpace c = false := by
  unfold stripWs at h
  rw [List.getLast?_reverse] at h
  exact head?_dropWhile_not _ c h

theorem head?_stripWs (l : List Char) (c : Char)
    (h : (stripWs l).head? = some c) : isPySpace c = false := by
  unfold stripWs at h
  rw [List.head?_reverse] at h
  set y := ((l.dropWhile isPySpace).reverse).dropWhile isPySpace with hy
  obtain ⟨t, hty⟩ := List.dropWhile_suffix (l := (l.dropWhile isPySpace).reverse) isPySpace
  have hm : ((l.dropWhile isPySpace).reverse).getLast? = some c := by
    rw [← hty, List.getLast?_append, h]
    rfl
  rw [List.getLast?_reverse] at hm
  exact head?_dropWhile_not _ c hm

theorem mem_normalizeText (s : String) : ∀ c ∈ (normalizeText s).data,
    (c = ' ' ∨ (isPySpace c = false ∧ (isWordChar c = true ∨ c = '-' ∨ c = '.'))) ∧
      ¬('A' ≤ c ∧ c ≤ 'Z') := by
  intro c hc
  have hc0 : c ∈ stripWs (collapseWs ((s.data.map Char.toLower).map keepChar)) := hc
  have hc1 : c ∈ collapseWs ((s.data.map Char.toLower).map keepChar) :=
    stripWs_subset _ c hc0
  rcases mem_collapseWs _ c hc1 with rfl | ⟨h1, h2⟩
  · exact ⟨Or.inl rfl, by decide⟩
  · rcases List.mem_map.mp h1 with ⟨c0, hc0m, rfl⟩
    rcases List.mem_map.mp hc0m with ⟨x, _, rfl⟩
    by_cases hcond : (isWordChar (Char.toLower x) || isPySpace (Char.toLower x) ||
        Char.toLower x = '-' || Char.toLower x = '.') = true
    · rw [show keepChar (Char.toLower x) = Char.toLower x by
        unfold keepChar
        rw [if_pos hcond]] at h2 ⊢
      constructor
      · refine Or.inr ⟨h2, ?_⟩
        rcases Bool.or_eq_true_iff.mp hcond with h3 | h3
        · rcases Bool.or_eq_true_iff.mp h3 with h4 | h4
          · rcases Bool.or_eq_true_iff.mp h4 with h5 | h5
            · exact Or.inl h5
            · rw [h2] at h5
              cases h5
          · exact Or.inr (Or.inl (by simpa using h4))
        · exact Or.inr (Or.inr (by simpa using h3))
      · exact toLower_not_upper x
    · rw [show keepChar (Char.toLower x) = ' ' by
        unfold keepChar
        rw [if_neg hcond]]
      exact ⟨Or.inl rfl, by decide⟩

/-- C8: the normalizer is a total Lean function (it cannot fail); it maps the
empty string to the empty string; every output character is a space or a
non-whitespace character among word characters, hyphen and period; no output
character is an ASCII upper-case letter (lower-casing); no two adjacent
output characters are both spaces (whitespace runs are collapsed); and the
output neither starts nor ends with a space (ends are trimmed). -/
theorem C8_normalize_total (s : String) :
    normalizeText "" = "" ∧
    (normalizeText s).data.Forall (fun c =>
      (c = ' ' ∨ (isPySpace c = false ∧ (isWordChar c = true ∨ c = '-' ∨ c = '.'))) ∧
        ¬('A' ≤ c ∧ c ≤ 'Z')) ∧
    List.Chain' noDoubleSpace (normalizeText s).data ∧
    (normalizeText s).data.head? ≠ some ' ' ∧
    (normalizeText s).data.getLast? ≠ some ' ' := by
  refine ⟨rfl, ?_, ?_, ?_, ?_⟩
  · rw [List.forall_iff_forall_mem]
    exact mem_normalizeText s
  · exact chain'_stripWs (chain'_collapseWs _)
  · intro h
    exact absurd (head?_stripWs _ _ h) (by decide)
  · intro h
    exact absurd (getLast?_stripWs _ _ h) (by decide)

theorem tfidf_nil (docsG : List (List String)) (t : String) : tfidf docsG [] t = 0 := by
  unfold tfidf
  simp

theorem dotW_nil_left (docsG : List (List String)) (g : List String) :
    dotW docsG [] g = 0 := by
  unfold dotW
  apply List.sum_eq_zero
  intro x hx
  rcases List.mem_map.mp hx with ⟨t, _, rfl⟩
  rw [tfidf_nil, zero_mul]

theorem cosineSim_nil_left (docsG : List (List String)) (g : List String) :
    cosineSim docsG [] g = 0 := by
  unfold cosineSim
  rw [dotW_nil_left, zero_div]

theorem cosineSim_self {docsG : List (List String)} {g : List String}
    (h : 0 < dotW docsG g g) : cosineSim docsG g g = 1 := by
  unfold cosineSim
  rw [Real.mul_self_sqrt (le_of_lt h)]
  exact div_self (ne_of_gt h)

theorem dotW_self_pos {docsG : List (List String)} {g : List String}
    (hmem : g ∈ docsG) (hne : g ≠ []) : 0 < dotW docsG g g := by
  obtain ⟨t, ht⟩ : ∃ t, t ∈ g := ⟨g.head hne, List.head_mem hne⟩
  have htv : t ∈ vocabOf docsG := by
    unfold vocabOf
    rw [List.mem_dedup, List.mem_flatten]
    exact ⟨g, hmem, ht⟩
  have hcount : (1 : ℝ) ≤ (g.count t : ℝ) := by
    have h0 : 0 < g.count t := List.count_pos_iff.mpr ht
    exact_mod_cast h0
  have hidf := one_le_idf docsG t
  have h1 : (1 : ℝ) ≤ tfidf docsG g t := by
    unfold tfidf
    nlinarith
  have hterm : (1 : ℝ) ≤ tfidf docsG g t * tfidf docsG g t := by nlinarith
  have hsum : tfidf docsG g t * tfidf docsG g t ≤ dotW docsG g g := by
    unfold dotW
    apply List.single_le_sum
    · intro x hx
      rcases List.mem_map.mp hx with ⟨u, _, rfl⟩
      exact mul_nonneg (tfidf_nonneg _ _ _) (tfidf_nonneg _ _ _)
    · exact List.mem_map.mpr ⟨t, htv, rfl⟩
  linarith

/-- Integer inner product of raw n-gram counts over a vocabulary; for a
single-document corpus the smoothed idf of every vocabulary term is 1, so
TF-IDF inner products reduce to this. -/
def natDot (vocab : List String) (g1 g2 : List String) : ℕ :=
  (vocab.map (fun t => g1.count t * g2.count t)).sum

theorem idf_single {d : List String} {t : String} (ht : t ∈ d) : idf [d] t = 1 := by
  unfold idf dfCount
  have hfil : List.filter (fun x => x.contains t) [d] = [d] := by
    simp [List.filter, ht]
  rw [hfil]
  norm_num [Real.log_one]

theorem dotW_single (d g1 g2 : List String) :
    dotW [d] g1 g2 = (natDot (vocabOf [d]) g1 g2 : ℝ) := by
  unfold dotW natDot
  rw [Nat.cast_list_sum, List.map_map]
  apply congrArg
  apply List.map_congr_left
  intro t ht
  have htd : t ∈ d := by
    unfold vocabOf at ht
    rw [List.mem_dedup] at ht
    simpa using ht
  simp only [Function.comp_apply]
  unfold tfidf
  rw [idf_single htd]
  push_cast
  ring

theorem cosineSim_single (d g1 g2 : List String) :
    cosineSim [d] g1 g2 = (natDot (vocabOf [d]) g1 g2 : ℝ) /
      (Real.sqrt (natDot (vocabOf [d]) g1 g1) * Real.sqrt (natDot (vocabOf [d]) g2 g2)) := by
  unfold cosineSim
  rw [dotW_single, dotW_single, dotW_single]

theorem le_div_sqrt_sqrt {c a b d : ℝ} (hb : 0 < b) (hd : 0 < d) (hc : 0 ≤ c)
    (ha : 0 ≤ a) (h : c ^ 2 * (b * d) ≤ a ^ 2) :
    c ≤ a / (Real.sqrt b * Real.sqrt d) := by
  rw [← Real.sqrt_mul hb.le, le_div_iff₀ (Real.sqrt_pos.mpr (mul_pos hb hd))]
  have h1 : (c * Real.sqrt (b * d)) ^ 2 ≤ a ^ 2 := by
    rw [mul_pow, Real.sq_sqrt (mul_pos hb hd).le]
    linarith
  have h2 : 0 ≤ c * Real.sqrt (b * d) := mul_nonneg hc (Real.sqrt_nonneg _)
  exact (pow_le_pow_iff_left₀ h2 ha (by norm_num)).mp h1

theorem div_sqrt_sqrt_lt {c a b d : ℝ} (hb : 0 < b) (hd : 0 < d) (hc : 0 ≤ c)
    (h : a ^ 2 < c ^ 2 * (b * d)) :
    a / (Real.sqrt b * Real.sqrt d) < c := by
  rw [← Real.sqrt_mul hb.le, div_lt_iff₀ (Real.sqrt_pos.mpr (mul_pos hb hd))]
  by_contra hcon
  push_neg at hcon
  have h2 : 0 ≤ c * Real.sqrt (b * d) := mul_nonneg hc (Real.sqrt_nonneg _)
  have h1 : (c * Real.sqrt (b * d)) ^ 2 ≤ a ^ 2 := pow_le_pow_left₀ h2 hcon 2
  rw [mul_pow, Real.sq_sqrt (mul_pos hb hd).le] at h1
  linarith

theorem searchAnswers_singleton (e : KnowledgeBase) (n : ℕ) (q : String) (c : ℚ)
    (he : e.is_active = true) :
    searchAnswers (initService [e] n) q c =
      if (c : ℝ) ≤ cosineSim [gramsOf (docString e)] (gramsOf (normalizeText q))
          (gramsOf (docString e)) then
        [mkCandidate e (cosineSim [gramsOf (docString e)] (gramsOf (normalizeText q))
          (gramsOf (docString e)))]
      else [] := by
  have hstate : initService [e] n =
      { db := [e], nextId := n, kb_items := [e], corpus := some [docString e] } := by
    unfold initService rebuildIndex activeEntries
    simp [he]
  rw [hstate]
  unfold searchAnswers matchesFor
  simp only [List.isEmpty_cons, List.map_cons, List.map_nil, List.zip_cons_cons,
    List.zip_nil_right, List.filter_cons, List.filter_nil]
  by_cases hcond : (c : ℝ) ≤ cosineSim [gramsOf (docString e)] (gramsOf (normalizeText q))
      (gramsOf (docString e))
  · rw [if_pos hcond]
    simp [hcond, sortDesc, insertDesc]
  · rw [if_neg hcond]
    simp [hcond, sortDesc]

theorem searchAnswers_empty_query (s : Service) (question : String) (c : ℚ)
    (hq : normalizeText question = "") (hc : 0 < c) :
    searchAnswers s question c = [] := by
  unfold searchAnswers
  have hM : matchesFor s question c = [] := by
    rcases hcor : s.corpus with _ | corpus
    · simp [matchesFor, hcor]
    · simp only [matchesFor, hcor]
      by_cases hk : s.kb_items.isEmpty = true
      · rw [if_pos hk]
      · rw [if_neg hk, hq]
        rw [show gramsOf "" = ([] : List String) from rfl]
        apply List.map_eq_nil_iff.mpr
        apply List.filter_eq_nil_iff.mpr
        intro p hp
        obtain ⟨e, v⟩ := p
        have hv := (List.of_mem_zip hp).2
        rcases List.mem_map.mp hv with ⟨d, _, rfl⟩
        rw [decide_eq_true_eq, cosineSim_nil_left]
        have hc2 : (0 : ℝ) < (c : ℝ) := by exact_mod_cast hc
        exact not_le.mpr hc2
  rw [hM]
  simp [sortDesc]

/-- C2 (amended): when the normalized question is empty, `search_answers`
returns the empty list for every positive `min_confidence` (in particular
the default 0.1); with `min_confidence` at most 0 the guard fails, because
the all-zero query vector scores 0 against every document and 0 passes the
filter: the empty-query result is empty only for positive thresholds, not
for every threshold. -/
theorem C2_empty_query (s : Service) (question : String) (c : ℚ)
    (hq : normalizeText question = "") (hc : 0 < c) :
    searchAnswers s question c = [] :=
  searchAnswers_empty_query s question c hq hc

/-- Entry used by the C2 witness and counterexample. -/
def kbAaBb : KnowledgeBase :=
  { id := 0, question := "hello world", answer := "aa bb", tags := [],
    category := none, is_active := true }

theorem C2_empty_query_witness :
    normalizeText "" = "" ∧ (0 : ℚ) < 1/10 ∧
      searchAnswers (initService [kbAaBb] 1) "" ((1 : ℚ)/10) = [] :=
  ⟨rfl, by norm_num,
    C2_empty_query (initService [kbAaBb] 1) "" ((1 : ℚ)/10) rfl (by norm_num)⟩

/-- C2 counterexample: with one active entry, the empty query and
`min_confidence = 0`, `search_answers` returns one candidate (the zero-score
match passes the filter), not the empty list; so the result is not empty for
every `min_confidence`. -/
theorem C2_counterexample :
    (searchAnswers (initService [kbAaBb] 1) "" 0).length = 1 := by
  rw [searchAnswers_singleton _ 1 "" 0 rfl]
  rw [show gramsOf (normalizeText "") = ([] : List String) from rfl]
  rw [cosineSim_nil_left]
  rw [if_pos (by norm_num)]
  rfl

theorem mem_zip_map_self {α β : Type} (f : α → β) (l : List α) (a : α) (ha : a ∈ l) :
    (a, f a) ∈ l.zip (l.map f) := by
  induction l with
  | nil => cases ha
  | cons x xs ih =>
    rcases List.mem_cons.mp ha with rfl | h2
    · rw [List.map_cons, List.zip_cons_cons]
      exact List.mem_cons_self _ _
    · rw [List.map_cons, List.zip_cons_cons]
      exact List.mem_cons_of_mem _ (ih h2)

/-- C1 (amended): there is no exact-match tier, so a verbatim question query
is scored by TF-IDF cosine like any other text and its confidence is in
general below 1.0; what does score exactly 1.0 is the entry's own indexed
document text: for every active entry E, querying with E's raw document text
(question, answer and tags joined by spaces) returns a candidate for E with
confidence exactly 1.0, for any threshold at most 1, provided the document
has at least one n-gram. -/
theorem C1_document_query (db : List KnowledgeBase) (n : ℕ) (e : KnowledgeBase) (c : ℚ)
    (he : e ∈ db) (hact : e.is_active = true)
    (hne : gramsOf (docString e) ≠ []) (hc : c ≤ 1) :
    ∃ m ∈ searchAnswers (initService db n)
        (e.question ++ " " ++ e.answer ++ " " ++ String.intercalate " " e.tags) c,
      m.id = e.id ∧ m.confidence = 1 := by
  have heitems : e ∈ activeEntries db := List.mem_filter.mpr ⟨he, by rw [hact]⟩
  have hne2 : (activeEntries db).isEmpty = false :=
    List.isEmpty_eq_false.mpr (List.ne_nil_of_mem heitems)
  have hstate : initService db n =
      { db := db, nextId := n, kb_items := activeEntries db,
        corpus := some ((activeEntries db).map docString) } := by
    unfold initService rebuildIndex
    rw [if_neg (by rw [hne2]; exact Bool.false_ne_true)]
  rw [hstate]
  have hsim1 : cosineSim (((activeEntries db).map docString).map gramsOf)
      (gramsOf (docString e)) (gramsOf (docString e)) = 1 := by
    apply cosineSim_self
    apply dotW_self_pos _ hne
    exact List.mem_map.mpr ⟨docString e, List.mem_map.mpr ⟨e, heitems, rfl⟩, rfl⟩
  refine ⟨mkCandidate e (cosineSim (((activeEntries db).map docString).map gramsOf)
    (gramsOf (docString e)) (gramsOf (docString e))), ?_, rfl, ?_⟩
  · unfold searchAnswers
    apply (sortDesc_perm _).mem_iff.mpr
    unfold matchesFor
    dsimp only
    rw [hne2, if_neg Bool.false_ne_true]
    apply List.mem_map.mpr
    refine ⟨(e, cosineSim (((activeEntries db).map docString).map gramsOf)
      (gramsOf (docString e)) (gramsOf (docString e))), ?_, rfl⟩
    apply List.mem_filter.mpr
    constructor
    · rw [show normalizeText (e.question ++ " " ++ e.answer ++ " " ++
        String.intercalate " " e.tags) = docString e from rfl]
      rw [List.map_map, List.map_map]
      exact mem_zip_map_self _ (activeEntries db) e heitems
    · rw [decide_eq_true_eq]
      show (c : ℝ) ≤ cosineSim (((activeEntries db).map docString).map gramsOf)
        (gramsOf (docString e)) (gramsOf (docString e))
      rw [hsim1]
      exact_mod_cast hc
  · show cosineSim (((activeEntries db).map docString).map gramsOf)
      (gramsOf (docString e)) (gramsOf (docString e)) = 1
    exact hsim1

/-- Entry used by the C1 witness: answer repeats a word of the question. -/
def kbHello : KnowledgeBase :=
  { id := 0, question := "hello world", answer := "hello", tags := [],
    category := none, is_active := true }

theorem C1_document_query_witness :
    kbHello ∈ [kbHello] ∧ kbHello.is_active = true ∧
      gramsOf (docString kbHello) ≠ [] ∧ (1 : ℚ)/10 ≤ 1 ∧
      ∃ m ∈ searchAnswers (initService [kbHello] 7)
          (kbHello.question ++ " " ++ kbHello.answer ++ " " ++
            String.intercalate " " kbHello.tags) ((1 : ℚ)/10),
        m.id = kbHello.id ∧ m.confidence = 1 :=
  ⟨by decide, rfl, by decide, by norm_num,
    C1_document_query [kbHello] 7 kbHello ((1 : ℚ)/10) (by decide) rfl (by decide) (by norm_num)⟩

/-- Confidence carried by an optional best answer, 0 when there is none. -/
noncomputable def confidenceOf (r : Option MatchCandidate) : ℝ :=
  (r.map (fun m => m.confidence)).getD 0

/-- Entry used by the C1 counterexample. -/
def kbHelloCc : KnowledgeBase :=
  { id := 0, question := "hello world", answer := "aa bb cc", tags := [],
    category := none, is_active := true }

/-- C1 counterexample: for the single active entry with question
"hello world" and answer "aa bb cc", querying `get_best_answer` with the
question verbatim returns a best match whose confidence is strictly between
0 and 1 (it is 3 over sqrt 27), not exactly 1.0: no exact-match tier exists. -/
theorem C1_counterexample :
    0 < confidenceOf (getBestAnswer (initService [kbHelloCc] 1) "hello world" ((1 : ℚ)/10)) ∧
      confidenceOf (getBestAnswer (initService [kbHelloCc] 1) "hello world" ((1 : ℚ)/10)) < 1 := by
  have hsim : cosineSim [gramsOf (docString kbHelloCc)] (gramsOf (normalizeText "hello world"))
      (gramsOf (docString kbHelloCc)) = (3 : ℝ) / (Real.sqrt 3 * Real.sqrt 9) := by
    rw [cosineSim_single]
    norm_num [show natDot (vocabOf [gramsOf (docString kbHelloCc)])
        (gramsOf (normalizeText "hello world")) (gramsOf (docString kbHelloCc)) = 3 by decide,
      show natDot (vocabOf [gramsOf (docString kbHelloCc)])
        (gramsOf (normalizeText "hello world")) (gramsOf (normalizeText "hello world")) = 3
        by decide,
      show natDot (vocabOf [gramsOf (docString kbHelloCc)])
        (gramsOf (docString kbHelloCc)) (gramsOf (docString kbHelloCc)) = 9 by decide]
  have hge : (((1 : ℚ)/10 : ℚ) : ℝ) ≤ (3 : ℝ) / (Real.sqrt 3 * Real.sqrt 9) := by
    rw [show (((1 : ℚ)/10 : ℚ) : ℝ) = 1/10 by norm_num]
    apply le_div_sqrt_sqrt (by norm_num) (by norm_num) (by norm_num) (by norm_num)
    norm_num
  have hs := searchAnswers_singleton kbHelloCc 1 "hello world" ((1 : ℚ)/10) rfl
  rw [hsim, if_pos hge] at hs
  have hbest : getBestAnswer (initService [kbHelloCc] 1) "hello world" ((1 : ℚ)/10) =
      some (mkCandidate kbHelloCc ((3 : ℝ) / (Real.sqrt 3 * Real.sqrt 9))) := by
    unfold getBestAnswer
    rw [hs]
    rfl
  rw [hbest]
  constructor
  · show 0 < (3 : ℝ) / (Real.sqrt 3 * Real.sqrt 9)
    positivity
  · show (3 : ℝ) / (Real.sqrt 3 * Real.sqrt 9) < 1
    apply div_sqrt_sqrt_lt (by norm_num) (by norm_num) (by norm_num)
    norm_num

theorem rebuildIndex_db (s : Service) : (rebuildIndex s).db = s.db := by
  unfold rebuildIndex
  by_cases h : (activeEntries s.db).isEmpty = true
  · rw [if_pos h]
  · rw [if_neg h]

/-- Row inserted by `add_entry` for the given id, question, answer, tags and
category (`is_active` defaults to true). -/
def insertedEntry (nid : ℕ) (q a : String) (tags : List String) (cat : Option String) :
    KnowledgeBase :=
  { id := nid, question := q, answer := a, tags := tags, category := cat,
    is_active := true }

theorem addEntry_initial (q a : String) (tags : List String) (cat : Option String) :
    addEntry (initService [] 0) q a tags cat =
      (initService [insertedEntry 0 q a tags cat] 1,
        Except.ok (insertedEntry 0 q a tags cat)) := by
  unfold addEntry
  rw [searchAnswers_no_active [] 0 q (8/10) rfl]
  simp only [List.isEmpty_nil]
  rw [if_neg (by simp)]
  rfl

/-- Entry inserted first in the C4 counterexample: question "What is
Solana?", answer made of filler tokens that dilute the TF-IDF similarity. -/
def kbSolDiluted : KnowledgeBase := insertedEntry 0 "What is Solana?" "aa bb cc dd ee" [] none

theorem searchAnswers_solDiluted :
    searchAnswers (initService [kbSolDiluted] 1) "What is Solana?" (8/10) = [] := by
  have hsim : cosineSim [gramsOf (docString kbSolDiluted)]
      (gramsOf (normalizeText "What is Solana?")) (gramsOf (docString kbSolDiluted)) =
      (5 : ℝ) / (Real.sqrt 5 * Real.sqrt 15) := by
    rw [cosineSim_single]
    norm_num [show natDot (vocabOf [gramsOf (docString kbSolDiluted)])
        (gramsOf (normalizeText "What is Solana?")) (gramsOf (docString kbSolDiluted)) = 5
        by decide,
      show natDot (vocabOf [gramsOf (docString kbSolDiluted)])
        (gramsOf (normalizeText "What is Solana?"))
        (gramsOf (normalizeText "What is Solana?")) = 5 by decide,
      show natDot (vocabOf [gramsOf (docString kbSolDiluted)])
        (gramsOf (docString kbSolDiluted)) (gramsOf (docString kbSolDiluted)) = 15 by decide]
  have hlt : ¬ ((((8 : ℚ)/10 : ℚ) : ℝ) ≤ (5 : ℝ) / (Real.sqrt 5 * Real.sqrt 15)) := by
    rw [not_le]
    apply div_sqrt_sqrt_lt (by norm_num) (by norm_num) (by push_cast; norm_num)
    push_cast
    norm_num
  rw [searchAnswers_singleton kbSolDiluted 1 "What is Solana?" (8/10) rfl, hsim, if_neg hlt]

/-- C4 counterexample: after successfully inserting an entry with question
"What is Solana?" and answer "aa bb cc dd ee", inserting a second entry with
the identical question (hence the same normalized form) also succeeds: the
duplicate check searches at threshold 0.8, the cosine score of the question
against the stored document is 5 over sqrt 75, below 0.8, so no error is
raised and the store grows to two entries; the insertion is not rejected. -/
theorem C4_counterexample :
    ((addEntry (initService [] 0) "What is Solana?" "aa bb cc dd ee" [] none).2).isOk = true ∧
    ((addEntry ((addEntry (initService [] 0) "What is Solana?" "aa bb cc dd ee" [] none).1)
        "What is Solana?" "zz yy" [] none).2).isOk = true ∧
    ((addEntry ((addEntry (initService [] 0) "What is Solana?" "aa bb cc dd ee" [] none).1)
        "What is Solana?" "zz yy" [] none).1).db.length = 2 := by
  have h1 := addEntry_initial "What is Solana?" "aa bb cc dd ee" [] none
  refine ⟨by rw [h1]; rfl, ?_, ?_⟩
  · rw [h1]
    show ((addEntry (initService [kbSolDiluted] 1) "What is Solana?" "zz yy" [] none).2).isOk
      = true
    unfold addEntry
    rw [searchAnswers_solDiluted]
    simp only [List.isEmpty_nil]
    rw [if_neg (by simp)]
    rfl
  · rw [h1]
    show ((addEntry (initService [kbSolDiluted] 1) "What is Solana?" "zz yy" [] none).1).db.length
      = 2
    unfold addEntry
    rw [searchAnswers_solDiluted]
    simp only [List.isEmpty_nil]
    rw [if_neg (by simp)]
    show (rebuildIndex _).db.length = 2
    rw [rebuildIndex_db]
    rfl

/-- Entry inserted first in the C4 amended scenario: question and answer are
both "What is Solana?", so the question scores high against the document. -/
def kbSolRepeat : KnowledgeBase := insertedEntry 0 "What is Solana?" "What is Solana?" [] none

theorem searchAnswers_solRepeat :
    searchAnswers (initService [kbSolRepeat] 1) "What is Solana?" (8/10) =
      [mkCandidate kbSolRepeat ((10 : ℝ) / (Real.sqrt 5 * Real.sqrt 21))] := by
  have hsim : cosineSim [gramsOf (docString kbSolRepeat)]
      (gramsOf (normalizeText "What is Solana?")) (gramsOf (docString kbSolRepeat)) =
      (10 : ℝ) / (Real.sqrt 5 * Real.sqrt 21) := by
    rw [cosineSim_single]
    norm_num [show natDot (vocabOf [gramsOf (docString kbSolRepeat)])
        (gramsOf (normalizeText "What is Solana?")) (gramsOf (docString kbSolRepeat)) = 10
        by decide,
      show natDot (vocabOf [gramsOf (docString kbSolRepeat)])
        (gramsOf (normalizeText "What is Solana?"))
        (gramsOf (normalizeText "What is Solana?")) = 5 by decide,
      show natDot (vocabOf [gramsOf (docString kbSolRepeat)])
        (gramsOf (docString kbSolRepeat)) (gramsOf (docString kbSolRepeat)) = 21 by decide]
  have hge : (((8 : ℚ)/10 : ℚ) : ℝ) ≤ (10 : ℝ) / (Real.sqrt 5 * Real.sqrt 21) := by
    apply le_div_sqrt_sqrt (by norm_num) (by norm_num) (by push_cast; norm_num) (by norm_num)
    push_cast
    norm_num
  rw [searchAnswers_singleton kbSolRepeat 1 "What is Solana?" (8/10) rfl, hsim, if_pos hge]

/-- C4 (amended): `add_entry` rejects an insertion exactly when
`search_answers` at threshold 0.8 returns a candidate for the new question;
the raised error is a `ValueError` with the fixed message "Similar question
already exists in knowledge base" and carries no entry id; in the concrete
scenario whose first entry has question and answer both "What is Solana?",
re-inserting that question is rejected with this error and the service state
is left unchanged.  A same-normalized question whose score stays below 0.8
is not rejected. -/
theorem C4_duplicate_check :
    ((addEntry (initService [] 0) "What is Solana?" "What is Solana?" [] none).2).isOk = true ∧
    (addEntry ((addEntry (initService [] 0) "What is Solana?" "What is Solana?" [] none).1)
        "What is Solana?" "another answer" [] none).2 =
      Except.error (PyErr.valueError dupMsg) ∧
    (addEntry ((addEntry (initService [] 0) "What is Solana?" "What is Solana?" [] none).1)
        "What is Solana?" "another answer" [] none).1 =
      (addEntry (initService [] 0) "What is Solana?" "What is Solana?" [] none).1 := by
  have h1 := addEntry_initial "What is Solana?" "What is Solana?" [] none
  have hne : (searchAnswers (initService [kbSolRepeat] 1) "What is Solana?"
      (8/10)).isEmpty = false := by
    rw [searchAnswers_solRepeat]
    rfl
  refine ⟨by rw [h1]; rfl, ?_, ?_⟩
  · rw [h1]
    show (addEntry (initService [kbSolRepeat] 1) "What is Solana?" "another answer" [] none).2
      = Except.error (PyErr.valueError dupMsg)
    unfold addEntry
    rw [if_pos hne]
  · rw [h1]
    show (addEntry (initService [kbSolRepeat] 1) "What is Solana?" "another answer" [] none).1
      = initService [kbSolRepeat] 1
    unfold addEntry
    rw [if_pos hne]

/-- C10: on every service state and insertion request, either `add_entry`
raised the duplicate error and the whole service state (entry store and all
index fields) is exactly the pre-call state, or the insertion succeeded: the
duplicate check precedes every write, so failure mutates nothing. -/
theorem C10_add_entry_atomic (s : Service) (question answer : String)
    (tags : List String) (category : Option String) :
    (addEntry s question answer tags category).1 = s ∨
      ((addEntry s question answer tags category).2).isOk = true := by
  unfold addEntry
  by_cases h : (searchAnswers s question (8/10)).isEmpty = false
  · rw [if_pos h]
    exact Or.inl rfl
  · rw [if_neg h]
    exact Or.inr rfl

end SolanaRfp
